import Mathlib

/-!
Verification of the recording playback engine of
`hid_controller/macos_hid_prototype.cpp`.

The engine's data is embedded shallowly: relative coordinates (C `float`)
become exact rationals, machine integers become `ℤ`, and every placeholder
emission of the prototype (`sendMouseMove`, `sendMouseButton`, `sendKeyPress`)
becomes an `Event` appended to a trace.  Blocking delays are recorded as
`Event.sleep` entries so that the order and presence of waits is visible in
the trace.  C integer division (`dx / steps`, truncation toward zero) is
`Int.tdiv`; the C cast `(int)` of a non-negative float is the floor.
-/

namespace HID

/-- Truncation toward zero of a rational, the meaning of the C cast
`(int)(...)` applied at lines 66-67 of `macos_hid_prototype.cpp`. -/
def truncInt (q : ℚ) : ℤ :=
  if 0 ≤ q then ⌊q⌋ else ⌈q⌉

/-- Screen dimensions held by `HIDController` (`screenWidth`, `screenHeight`,
lines 45-46). -/
structure ScreenProfile where
  width : ℤ
  height : ℤ
deriving DecidableEq

/-- The default profile built into the controller: 390 by 844. -/
def defaultProfile : ScreenProfile := ⟨390, 844⟩

/-- Cursor position owned by the engine (`currentX`, `currentY`, lines
49-50). -/
structure CursorState where
  x : ℤ
  y : ℤ
deriving DecidableEq

/-- `HIDController::relativeToAbsolute` (lines 65-68):
`absX = (int)(relX * screenWidth)` and `absY = (int)(relY * screenHeight)`. -/
def relativeToAbsolute (relX relY : ℚ) (p : ScreenProfile) : ℤ × ℤ :=
  (truncInt (relX * p.width), truncInt (relY * p.height))

/-- One low-level emission of the prototype: a relative mouse move report, a
button report, a key report, or a blocking delay in milliseconds. -/
inductive Event where
  | move (dx dy : ℤ)
  | button (pressed : Bool)
  | key (keycode : ℕ) (pressed : Bool)
  | sleep (ms : ℕ)
deriving DecidableEq

/-- `RecordedAction` (lines 18-37), given as a tagged variant over the kinds
used by `executeRecording`. -/
inductive RecordedAction where
  | move (relX relY : ℚ)
  | click (relX relY : ℚ)
  | drag (relX relY toRelX toRelY : ℚ)
  | wait (ms : ℕ)
  | type (text : List Char)

/-- `HIDController::sendMouseMove` (lines 169-181): one relative move
report. -/
def sendMouseMove (dx dy : ℤ) : List Event :=
  [Event.move dx dy]

/-- Low byte of a machine integer, the meaning of `dx & 0xFF` at lines
172-173 when the move report bytes are built. -/
def reportByte (d : ℤ) : ℕ :=
  (d % 256).toNat

/-- The 3-byte mouse move report of `sendMouseMove` (lines 170-174). -/
def mouseMoveReport (dx dy : ℤ) : List ℕ :=
  [0, reportByte dx, reportByte dy]

/-- Reading a report byte back as a two's-complement signed 8-bit value. -/
def int8OfByte (b : ℕ) : ℤ :=
  if b < 128 then (b : ℤ) else (b : ℤ) - 256

/-- `HIDController::moveToPosition` (lines 71-91): compute the absolute
target, emit ten sub-steps of `(dx / steps, dy / steps)` with a 10 ms sleep
after each, then set the cursor to the exact target. -/
def moveToPosition (cur : CursorState) (relX relY : ℚ) (p : ScreenProfile) :
    CursorState × List Event :=
  let target := relativeToAbsolute relX relY p
  let dx := target.1 - cur.x
  let dy := target.2 - cur.y
  let steps : ℤ := 10
  (⟨target.1, target.2⟩,
    List.flatten (List.replicate 10 (sendMouseMove (dx.tdiv steps) (dy.tdiv steps) ++ [Event.sleep 10])))

/-- `HIDController::click` (lines 94-99): press, 50 ms sleep, release. -/
def click : List Event :=
  [Event.button true, Event.sleep 50, Event.button false]

/-- `HIDController::drag` (lines 102-118): move to the origin, settle, press,
settle, move to the destination, settle, release. -/
def drag (cur : CursorState) (fromX fromY toX toY : ℚ) (p : ScreenProfile) :
    CursorState × List Event :=
  let r1 := moveToPosition cur fromX fromY p
  let r2 := moveToPosition r1.1 toX toY p
  (r2.1,
    r1.2 ++ [Event.sleep 100, Event.button true, Event.sleep 100] ++
      r2.2 ++ [Event.sleep 100, Event.button false])

/-- `HIDController::asciiToHIDKeycode` (lines 219-228). -/
def asciiToHIDKeycode (c : Char) : ℕ :=
  if 97 ≤ c.toNat ∧ c.toNat ≤ 122 then 0x04 + (c.toNat - 97)
  else if 65 ≤ c.toNat ∧ c.toNat ≤ 90 then 0x04 + (c.toNat - 65)
  else if 49 ≤ c.toNat ∧ c.toNat ≤ 57 then 0x1E + (c.toNat - 49)
  else if c.toNat = 48 then 0x27
  else if c.toNat = 32 then 0x2C
  else if c.toNat = 10 then 0x28
  else 0x00

/-- The characters for which `asciiToHIDKeycode` has a real mapping; all
others fall through to the `0x00` sentinel. -/
def hasKeycodeMapping (c : Char) : Prop :=
  (97 ≤ c.toNat ∧ c.toNat ≤ 122) ∨ (65 ≤ c.toNat ∧ c.toNat ≤ 90) ∨
    (49 ≤ c.toNat ∧ c.toNat ≤ 57) ∨ c.toNat = 48 ∨ c.toNat = 32 ∨ c.toNat = 10

instance (c : Char) : Decidable (hasKeycodeMapping c) := by
  unfold hasKeycodeMapping
  infer_instance

/-- `HIDController::sendKeyPress` (lines 196-217).  The source emits the
key-down report (line 212); it then only rewrites the local report buffer to
zero with the comment that a release report would be sent, so no release
emission reaches the output. -/
def sendKeyPress (c : Char) : List Event :=
  [Event.key (asciiToHIDKeycode c) true]

/-- `HIDController::typeText` (lines 121-127): for each character in order,
a key press followed by a 50 ms sleep. -/
def typeText (text : List Char) : List Event :=
  text.flatMap fun c => sendKeyPress c ++ [Event.sleep 50]

/-- One iteration of the action dispatch inside
`HIDController::executeRecording` (lines 134-158). -/
def execAction (cur : CursorState) (a : RecordedAction) (p : ScreenProfile) :
    CursorState × List Event :=
  match a with
  | RecordedAction.move x y => moveToPosition cur x y p
  | RecordedAction.click x y =>
      let r := moveToPosition cur x y p
      (r.1, r.2 ++ [Event.sleep 100] ++ click)
  | RecordedAction.drag x y tx ty => drag cur x y tx ty p
  | RecordedAction.wait ms => (cur, [Event.sleep ms])
  | RecordedAction.type t => (cur, typeText t)

/-- `HIDController::executeRecording` (lines 130-165): run the actions in
order, with a 100 ms sleep after every action. -/
def executeRecording (cur : CursorState) (actions : List RecordedAction) (p : ScreenProfile) :
    CursorState × List Event :=
  match actions with
  | [] => (cur, [])
  | a :: rest =>
      let r1 := execAction cur a p
      let r2 := executeRecording r1.1 rest p
      (r2.1, r1.2 ++ [Event.sleep 100] ++ r2.2)

/-- `getHomeButtonRecording` (lines 232-250). -/
def getHomeButtonRecording : List RecordedAction :=
  [RecordedAction.move 0.5 0.05, RecordedAction.wait 500,
   RecordedAction.click 0.85 0.02, RecordedAction.wait 1000]

/-- Recognizes relative mouse move reports in a trace. -/
def isMoveEvent : Event → Bool
  | Event.move _ _ => true
  | _ => false

/-- Recognizes button reports in a trace. -/
def isButtonEvent : Event → Bool
  | Event.button _ => true
  | _ => false

/-- Recognizes key reports in a trace. -/
def isKeyEvent : Event → Bool
  | Event.key _ _ => true
  | _ => false

/-- Recognizes key release reports in a trace. -/
def isKeyUpEvent : Event → Bool
  | Event.key _ pressed => !pressed
  | _ => false

theorem truncInt_of_nonneg (q : ℚ) (h : 0 ≤ q) : truncInt q = ⌊q⌋ :=
  if_pos h

/-- C1: for relative coordinates in the unit square and a profile with
positive width and height, `relativeToAbsolute` returns exactly the floors
of `x * width` and `y * height`; it is a pure function of its arguments. -/
theorem relativeToAbsolute_eq_floor (x y : ℚ) (p : ScreenProfile)
    (hx0 : 0 ≤ x) (hx1 : x ≤ 1) (hy0 : 0 ≤ y) (hy1 : y ≤ 1)
    (hw : 0 < p.width) (hh : 0 < p.height) :
    relativeToAbsolute x y p = (⌊x * (p.width : ℚ)⌋, ⌊y * (p.height : ℚ)⌋) := by
  unfold relativeToAbsolute
  rw [truncInt_of_nonneg _ (mul_nonneg hx0 (by exact_mod_cast hw.le)),
    truncInt_of_nonneg _ (mul_nonneg hy0 (by exact_mod_cast hh.le))]

/-- Witness for C1 at the concrete input (0.5, 0.05) on the 390 by 844
profile, where the floors evaluate to (195, 42). -/
theorem relativeToAbsolute_eq_floor_witness :
    relativeToAbsolute 0.5 0.05 ⟨390, 844⟩ =
      (⌊(0.5 : ℚ) * ((390 : ℤ) : ℚ)⌋, ⌊(0.05 : ℚ) * ((844 : ℤ) : ℚ)⌋) ∧
    (⌊(0.5 : ℚ) * ((390 : ℤ) : ℚ)⌋, ⌊(0.05 : ℚ) * ((844 : ℤ) : ℚ)⌋) = ((195 : ℤ), (42 : ℤ)) := by
  constructor
  · exact relativeToAbsolute_eq_floor 0.5 0.05 ⟨390, 844⟩ (by norm_num) (by norm_num)
      (by norm_num) (by norm_num) (by norm_num) (by norm_num)
  · norm_num

/-- C2: after a Move the cursor equals the exact absolute target computed by
`relativeToAbsolute` (not an accumulation of truncated sub-deltas), and a
second Move to the same relative coordinates leaves the cursor unchanged, so
rounding error cannot accumulate across Moves. -/
theorem moveToPosition_cursor_exact (cur : CursorState) (x y : ℚ) (p : ScreenProfile) :
    ((moveToPosition cur x y p).1.x, (moveToPosition cur x y p).1.y) =
      relativeToAbsolute x y p ∧
    (moveToPosition (moveToPosition cur x y p).1 x y p).1 = (moveToPosition cur x y p).1 := by
  constructor <;> rfl

/-- C3: a Move emits exactly ten relative move events, each carrying the
truncating integer division of the full delta by ten, and emits no button or
key event (in particular no absolute repositioning); this includes the case
of a zero delta, which still yields ten zero-delta events. -/
theorem moveToPosition_ten_substeps (cur : CursorState) (x y : ℚ) (p : ScreenProfile) :
    (moveToPosition cur x y p).2.filter isMoveEvent =
      List.replicate 10
        (Event.move (((relativeToAbsolute x y p).1 - cur.x).tdiv 10)
          (((relativeToAbsolute x y p).2 - cur.y).tdiv 10)) ∧
    (moveToPosition cur x y p).2.filter isButtonEvent = [] ∧
    (moveToPosition cur x y p).2.filter isKeyEvent = [] := by
  refine ⟨?_, ?_, ?_⟩ <;> rfl

/-- C4: a Drag's trace is the origin move sub-steps, one button-down, the
destination move sub-steps, one button-up, in that order; filtering the
trace to button events yields exactly a press then a release, for every pair
of origin and destination, equal coordinates included. -/
theorem drag_event_sequence (cur : CursorState) (fx fy tx ty : ℚ) (p : ScreenProfile) :
    (drag cur fx fy tx ty p).2 =
      (moveToPosition cur fx fy p).2 ++ [Event.sleep 100, Event.button true, Event.sleep 100] ++
        (moveToPosition (moveToPosition cur fx fy p).1 tx ty p).2 ++
        [Event.sleep 100, Event.button false] ∧
    (drag cur fx fy tx ty p).2.filter isButtonEvent =
      [Event.button true, Event.button false] := by
  constructor <;> rfl

/-- C5: the keycode translator is total and pure: the 26 lowercase and the
26 uppercase letters map onto the same contiguous range starting at `0x04`
(so no shift modifier can be derived from the code), the digits 1 to 9 map
onto the contiguous range starting at `0x1E`, `0`, space and newline have
their own fixed codes, every unmapped character yields the `0x00` sentinel
rather than an error, and a Type action keeps processing the characters
after an unmapped one. -/
theorem asciiToHIDKeycode_spec :
    (∀ n : Fin 26, asciiToHIDKeycode (Char.ofNat (97 + n.val)) = 0x04 + n.val ∧
      asciiToHIDKeycode (Char.ofNat (65 + n.val)) = 0x04 + n.val) ∧
    (∀ n : Fin 9, asciiToHIDKeycode (Char.ofNat (49 + n.val)) = 0x1E + n.val) ∧
    asciiToHIDKeycode (Char.ofNat 48) = 0x27 ∧
    asciiToHIDKeycode (Char.ofNat 32) = 0x2C ∧
    asciiToHIDKeycode (Char.ofNat 10) = 0x28 ∧
    (∀ c : Char, ¬ hasKeycodeMapping c → asciiToHIDKeycode c = 0x00) ∧
    (∀ (c : Char) (rest : List Char),
      typeText (c :: rest) =
        Event.key (asciiToHIDKeycode c) true :: Event.sleep 50 :: typeText rest) := by
  refine ⟨by decide, by decide, by decide, by decide, by decide, ?_, ?_⟩
  · intro c hc
    unfold hasKeycodeMapping at hc
    rw [not_or, not_or, not_or, not_or, not_or] at hc
    obtain ⟨h1, h2, h3, h4, h5, h6⟩ := hc
    unfold asciiToHIDKeycode
    rw [if_neg h1, if_neg h2, if_neg h3, if_neg h4, if_neg h5, if_neg h6]
  · intro c rest
    rfl

/-- Witness for C5: concrete evaluations, including the unmapped character
`?` which falls through to the sentinel, and a Type action that continues
past it. -/
theorem asciiToHIDKeycode_spec_witness :
    asciiToHIDKeycode (Char.ofNat 97) = 0x04 ∧
    asciiToHIDKeycode (Char.ofNat 65) = 0x04 ∧
    asciiToHIDKeycode (Char.ofNat 63) = 0x00 ∧
    typeText [Char.ofNat 63, Char.ofNat 97] =
      Event.key (asciiToHIDKeycode (Char.ofNat 63)) true :: Event.sleep 50 ::
        typeText [Char.ofNat 97] := by
  refine ⟨?_, ?_, ?_, ?_⟩
  · simpa using (asciiToHIDKeycode_spec.1 ⟨0, by norm_num⟩).1
  · simpa using (asciiToHIDKeycode_spec.1 ⟨0, by norm_num⟩).2
  · exact asciiToHIDKeycode_spec.2.2.2.2.2.1 (Char.ofNat 63) (by decide)
  · exact asciiToHIDKeycode_spec.2.2.2.2.2.2 (Char.ofNat 63) [Char.ofNat 97]

/-- C6 at the failing input: typing the single character `a` emits only the
key-down report; the trace holds no key-up event, because `sendKeyPress`
only prepares the release report without emitting it. -/
theorem typeText_emits_no_keyup :
    typeText [Char.ofNat 97] = [Event.key 0x04 true, Event.sleep 50] ∧
    (typeText [Char.ofNat 97]).filter isKeyEvent = [Event.key 0x04 true] ∧
    (typeText [Char.ofNat 97]).filter isKeyUpEvent = [] := by
  refine ⟨by decide, by decide, by decide⟩

/-- C9: replaying an empty recording emits no events and leaves the cursor
exactly where it was. -/
theorem executeRecording_empty (cur : CursorState) (p : ScreenProfile) :
    executeRecording cur [] p = (cur, []) :=
  rfl

/-- C8: running the home-button recording on the 390 by 844 profile from
cursor (0, 0) moves the cursor to (195, 42), sleeps 500 ms, moves to
(331, 16), clicks there, sleeps 1000 ms, and ends with the cursor at
(331, 16). -/
theorem homeButtonRecording_run :
    executeRecording ⟨0, 0⟩ getHomeButtonRecording defaultProfile =
      (⟨331, 16⟩,
        List.flatten (List.replicate 10 [Event.move 19 4, Event.sleep 10]) ++
          [Event.sleep 100, Event.sleep 500, Event.sleep 100] ++
          List.flatten (List.replicate 10 [Event.move 13 (-2), Event.sleep 10]) ++
          [Event.sleep 100, Event.button true, Event.sleep 50, Event.button false,
            Event.sleep 100, Event.sleep 1000, Event.sleep 100]) := by
  have h1 : relativeToAbsolute 0.5 0.05 defaultProfile = (195, 42) := by
    unfold relativeToAbsolute defaultProfile
    rw [truncInt_of_nonneg _ (by norm_num), truncInt_of_nonneg _ (by norm_num)]
    norm_num [Prod.ext_iff]
  have h2 : relativeToAbsolute 0.85 0.02 defaultProfile = (331, 16) := by
    unfold relativeToAbsolute defaultProfile
    rw [truncInt_of_nonneg _ (by norm_num), truncInt_of_nonneg _ (by norm_num)]
    norm_num [Prod.ext_iff]
  simp only [executeRecording, getHomeButtonRecording, execAction, moveToPosition,
    sendMouseMove, click, h1, h2]
  decide

/-- All relative coordinates carried by an action lie in the unit
interval. -/
def actionCoordsInUnit : RecordedAction → Prop
  | RecordedAction.move x y => 0 ≤ x ∧ x ≤ 1 ∧ 0 ≤ y ∧ y ≤ 1
  | RecordedAction.click x y => 0 ≤ x ∧ x ≤ 1 ∧ 0 ≤ y ∧ y ≤ 1
  | RecordedAction.drag x y tx ty =>
      (0 ≤ x ∧ x ≤ 1 ∧ 0 ≤ y ∧ y ≤ 1) ∧ (0 ≤ tx ∧ tx ≤ 1 ∧ 0 ≤ ty ∧ ty ≤ 1)
  | RecordedAction.wait _ => True
  | RecordedAction.type _ => True

/-- The cursor lies inside the default 390 by 844 screen. -/
def inBox (c : CursorState) : Prop :=
  0 ≤ c.x ∧ c.x ≤ 390 ∧ 0 ≤ c.y ∧ c.y ≤ 844

theorem truncInt_mem (x : ℚ) (w : ℤ) (hx0 : 0 ≤ x) (hx1 : x ≤ 1) (hw : 0 ≤ w) :
    0 ≤ truncInt (x * w) ∧ truncInt (x * w) ≤ w := by
  have hq0 : (0 : ℚ) ≤ x * w := mul_nonneg hx0 (by exact_mod_cast hw)
  rw [truncInt_of_nonneg _ hq0]
  refine ⟨Int.floor_nonneg.mpr hq0, ?_⟩
  have hle : x * (w : ℚ) ≤ (w : ℚ) :=
    mul_le_of_le_one_left (by exact_mod_cast hw) hx1
  calc ⌊x * (w : ℚ)⌋ ≤ ⌊(w : ℚ)⌋ := Int.floor_le_floor hle
  _ = w := Int.floor_intCast w

theorem tdiv_ten_bound (a : ℤ) (n : ℕ) (h1 : -(n : ℤ) ≤ a) (h2 : a ≤ (n : ℤ)) :
    -((n / 10 : ℕ) : ℤ) ≤ a.tdiv 10 ∧ a.tdiv 10 ≤ ((n / 10 : ℕ) : ℤ) := by
  rcases a with m | m
  · have e : (Int.ofNat m).tdiv 10 = ((m / 10 : ℕ) : ℤ) := rfl
    rw [e]
    rw [Int.ofNat_eq_natCast] at h1 h2
    omega
  · have e : (Int.negSucc m).tdiv 10 = -(((m + 1) / 10 : ℕ) : ℤ) := rfl
    rw [e]
    rw [Int.negSucc_eq] at h1 h2
    omega

theorem typeText_no_move (t : List Char) (dx dy : ℤ) :
    Event.move dx dy ∉ typeText t := by
  induction t with
  | nil => simp [typeText]
  | cons c cs ih => simp [typeText, sendKeyPress, ih]

theorem moveToPosition_deltas (cur : CursorState) (x y : ℚ)
    (hc : inBox cur) (hx0 : 0 ≤ x) (hx1 : x ≤ 1) (hy0 : 0 ≤ y) (hy1 : y ≤ 1) :
    inBox (moveToPosition cur x y defaultProfile).1 ∧
    ∀ dx dy, Event.move dx dy ∈ (moveToPosition cur x y defaultProfile).2 →
      -39 ≤ dx ∧ dx ≤ 39 ∧ -84 ≤ dy ∧ dy ≤ 84 := by
  obtain ⟨hcx0, hcx1, hcy0, hcy1⟩ := hc
  have hx := truncInt_mem x 390 hx0 hx1 (by norm_num)
  have hy := truncInt_mem y 844 hy0 hy1 (by norm_num)
  constructor
  · exact ⟨hx.1, hx.2, hy.1, hy.2⟩
  · intro dx dy hmem
    have hdx := tdiv_ten_bound (truncInt (x * ((390 : ℤ) : ℚ)) - cur.x) 390 (by omega) (by omega)
    have hdy := tdiv_ten_bound (truncInt (y * ((844 : ℤ) : ℚ)) - cur.y) 844 (by omega) (by omega)
    simp only [moveToPosition, relativeToAbsolute, defaultProfile, sendMouseMove,
      List.mem_flatten, List.mem_replicate] at hmem
    obtain ⟨l, ⟨-, rfl⟩, hl⟩ := hmem
    simp only [List.cons_append, List.nil_append, List.mem_cons,
      List.not_mem_nil, or_false] at hl
    rcases hl with h | h
    · obtain ⟨rfl, rfl⟩ := Event.move.inj h
      norm_num at hdx hdy
      exact ⟨hdx.1, hdx.2, hdy.1, hdy.2⟩
    · exact absurd h (by simp)

theorem execAction_deltas (cur : CursorState) (a : RecordedAction)
    (hc : inBox cur) (ha : actionCoordsInUnit a) :
    inBox (execAction cur a defaultProfile).1 ∧
    ∀ dx dy, Event.move dx dy ∈ (execAction cur a defaultProfile).2 →
      -39 ≤ dx ∧ dx ≤ 39 ∧ -84 ≤ dy ∧ dy ≤ 84 := by
  cases a with
  | move x y =>
      obtain ⟨hx0, hx1, hy0, hy1⟩ := ha
      exact moveToPosition_deltas cur x y hc hx0 hx1 hy0 hy1
  | click x y =>
      obtain ⟨hx0, hx1, hy0, hy1⟩ := ha
      obtain ⟨hbox, hmv⟩ := moveToPosition_deltas cur x y hc hx0 hx1 hy0 hy1
      refine ⟨hbox, ?_⟩
      intro dx dy hmem
      simp only [execAction, List.append_assoc, List.mem_append] at hmem
      rcases hmem with h | h | h
      · exact hmv dx dy h
      · simp at h
      · simp [click] at h
  | drag x y tx ty =>
      obtain ⟨⟨hx0, hx1, hy0, hy1⟩, ⟨htx0, htx1, hty0, hty1⟩⟩ := ha
      obtain ⟨hbox1, hmv1⟩ := moveToPosition_deltas cur x y hc hx0 hx1 hy0 hy1
      obtain ⟨hbox2, hmv2⟩ :=
        moveToPosition_deltas (moveToPosition cur x y defaultProfile).1 tx ty hbox1
          htx0 htx1 hty0 hty1
      refine ⟨hbox2, ?_⟩
      intro dx dy hmem
      simp only [execAction, drag, List.append_assoc, List.mem_append] at hmem
      rcases hmem with h | h | h | h
      · exact hmv1 dx dy h
      · simp at h
      · exact hmv2 dx dy h
      · simp at h
  | wait ms =>
      refine ⟨hc, ?_⟩
      intro dx dy hmem
      simp [execAction] at hmem
  | type t =>
      refine ⟨hc, ?_⟩
      intro dx dy hmem
      exact absurd hmem (typeText_no_move t dx dy)

theorem executeRecording_deltas (actions : List RecordedAction) (cur : CursorState)
    (hc : inBox cur) (h : ∀ a ∈ actions, actionCoordsInUnit a) :
    inBox (executeRecording cur actions defaultProfile).1 ∧
    ∀ dx dy, Event.move dx dy ∈ (executeRecording cur actions defaultProfile).2 →
      -39 ≤ dx ∧ dx ≤ 39 ∧ -84 ≤ dy ∧ dy ≤ 84 := by
  induction actions generalizing cur with
  | nil =>
      refine ⟨hc, ?_⟩
      intro dx dy hmem
      simp [executeRecording] at hmem
  | cons a rest ih =>
      have ha := h a (List.mem_cons_self a rest)
      have hrest := fun b hb => h b (List.mem_cons_of_mem a hb)
      obtain ⟨hbox1, hmv1⟩ := execAction_deltas cur a hc ha
      obtain ⟨hbox2, hmv2⟩ := ih (execAction cur a defaultProfile).1 hbox1 hrest
      refine ⟨hbox2, ?_⟩
      intro dx dy hmem
      simp only [executeRecording, List.append_assoc, List.mem_append] at hmem
      rcases hmem with hm | hm | hm
      · exact hmv1 dx dy hm
      · simp at hm
      · exact hmv2 dx dy hm

/-- C10: replaying any recording whose actions carry relative coordinates in
the unit interval, on the default 390 by 844 profile from cursor (0, 0),
only ever passes sub-step deltas inside the signed 8-bit range to the move
emitter, so the low-byte truncation performed when the 3-byte mouse report
is built reads back to the original delta. -/
theorem executeRecording_deltas_int8 (actions : List RecordedAction)
    (h : ∀ a ∈ actions, actionCoordsInUnit a) :
    ∀ dx dy, Event.move dx dy ∈ (executeRecording ⟨0, 0⟩ actions defaultProfile).2 →
      (-127 ≤ dx ∧ dx ≤ 127 ∧ -127 ≤ dy ∧ dy ≤ 127) ∧
      int8OfByte (reportByte dx) = dx ∧ int8OfByte (reportByte dy) = dy := by
  intro dx dy hmem
  obtain ⟨-, hb⟩ :=
    executeRecording_deltas actions ⟨0, 0⟩ (by refine ⟨?_, ?_, ?_, ?_⟩ <;> norm_num) h
  obtain ⟨h1, h2, h3, h4⟩ := hb dx dy hmem
  refine ⟨⟨by omega, by omega, by omega, by omega⟩, ?_, ?_⟩
  · unfold int8OfByte reportByte
    split <;> omega
  · unfold int8OfByte reportByte
    split <;> omega

/-- Witness for C10: a single Move to the far corner produces the sub-step
delta (39, 84), which round-trips through the report byte. -/
theorem executeRecording_deltas_int8_witness :
    (-127 ≤ (39 : ℤ) ∧ (39 : ℤ) ≤ 127 ∧ -127 ≤ (84 : ℤ) ∧ (84 : ℤ) ≤ 127) ∧
    int8OfByte (reportByte 39) = 39 ∧ int8OfByte (reportByte 84) = 84 := by
  have h1 : relativeToAbsolute 1 1 defaultProfile = (390, 844) := by
    unfold relativeToAbsolute defaultProfile
    rw [truncInt_of_nonneg _ (by norm_num), truncInt_of_nonneg _ (by norm_num)]
    norm_num [Prod.ext_iff]
  have hrun : executeRecording ⟨0, 0⟩ [RecordedAction.move 1 1] defaultProfile =
      (⟨390, 844⟩,
        List.flatten (List.replicate 10 [Event.move 39 84, Event.sleep 10]) ++
          [Event.sleep 100]) := by
    simp only [executeRecording, execAction, moveToPosition, sendMouseMove, h1]
    decide
  exact executeRecording_deltas_int8 [RecordedAction.move 1 1]
    (by
      intro a haa
      simp only [List.mem_singleton] at haa
      subst haa
      refine ⟨?_, ?_, ?_, ?_⟩ <;> norm_num)
    39 84 (by rw [hrun]; decide)

/-- Modelled from the spec: engine state for fallible playback.  The source's
emitters return void and cannot fail, so the OutputSink contract (each
emission returns success or a transport failure) is missing from the source;
`sent` counts the sink emissions accepted so far. -/
structure FState where
  cursor : CursorState
  sent : ℕ
deriving DecidableEq

/-- Modelled from the spec: outcome of one action or sub-step under a
fallible sink, carrying the engine state and the events emitted so far. -/
inductive ARun where
  | ok (s : FState) (tr : List Event)
  | failed (s : FState) (tr : List Event)
deriving DecidableEq

/-- Modelled from the spec: outcome of a whole playback call; `aborted`
carries the index of the action in progress when the sink failed. -/
inductive RRun where
  | ok (s : FState) (tr : List Event)
  | aborted (s : FState) (tr : List Event) (actionIdx : ℕ)
deriving DecidableEq

/-- Modelled from the spec: one sink emission.  `sink n` tells whether the
sink accepts the n-th emission; on failure nothing is emitted. -/
def femit (sink : ℕ → Bool) (s : FState) (e : Event) : ARun :=
  if sink s.sent then ARun.ok ⟨s.cursor, s.sent + 1⟩ [e]
  else ARun.failed s []

/-- Modelled from the spec: the sub-step loop of a Move, stopping at the
first rejected emission, with the 10 ms sleep after each accepted one. -/
def fmoveLoop (sink : ℕ → Bool) (dx dy : ℤ) : ℕ → FState → ARun
  | 0, s => ARun.ok s []
  | k + 1, s =>
      match femit sink s (Event.move (dx.tdiv 10) (dy.tdiv 10)) with
      | ARun.failed s1 tr1 => ARun.failed s1 tr1
      | ARun.ok s1 tr1 =>
          match fmoveLoop sink dx dy k s1 with
          | ARun.ok s2 tr2 => ARun.ok s2 (tr1 ++ [Event.sleep 10] ++ tr2)
          | ARun.failed s2 tr2 => ARun.failed s2 (tr1 ++ [Event.sleep 10] ++ tr2)

/-- Modelled from the spec: a fallible Move; the cursor is set to the exact
target only after the whole loop completed, as in the source. -/
def fmoveToPosition (sink : ℕ → Bool) (s : FState) (relX relY : ℚ) (p : ScreenProfile) : ARun :=
  let target := relativeToAbsolute relX relY p
  match fmoveLoop sink (target.1 - s.cursor.x) (target.2 - s.cursor.y) 10 s with
  | ARun.ok s1 tr => ARun.ok ⟨⟨target.1, target.2⟩, s1.sent⟩ tr
  | ARun.failed s1 tr => ARun.failed s1 tr

/-- Modelled from the spec: a fallible click: press, 50 ms hold, release. -/
def fclick (sink : ℕ → Bool) (s : FState) : ARun :=
  match femit sink s (Event.button true) with
  | ARun.failed s1 tr1 => ARun.failed s1 tr1
  | ARun.ok s1 tr1 =>
      match femit sink s1 (Event.button false) with
      | ARun.ok s2 tr2 => ARun.ok s2 (tr1 ++ [Event.sleep 50] ++ tr2)
      | ARun.failed s2 tr2 => ARun.failed s2 (tr1 ++ [Event.sleep 50] ++ tr2)

/-- Modelled from the spec: a fallible Drag: Move to the origin, settle,
press, settle, Move to the destination, settle, release; abandoned at the
first rejected emission. -/
def fdrag (sink : ℕ → Bool) (s : FState) (fromX fromY toX toY : ℚ) (p : ScreenProfile) : ARun :=
  match fmoveToPosition sink s fromX fromY p with
  | ARun.failed s1 tr1 => ARun.failed s1 tr1
  | ARun.ok s1 tr1 =>
      match femit sink s1 (Event.button true) with
      | ARun.failed s2 tr2 => ARun.failed s2 (tr1 ++ [Event.sleep 100] ++ tr2)
      | ARun.ok s2 tr2 =>
          match fmoveToPosition sink s2 toX toY p with
          | ARun.failed s3 tr3 =>
              ARun.failed s3 (tr1 ++ [Event.sleep 100] ++ tr2 ++ [Event.sleep 100] ++ tr3)
          | ARun.ok s3 tr3 =>
              match femit sink s3 (Event.button false) with
              | ARun.failed s4 tr4 =>
                  ARun.failed s4
                    (tr1 ++ [Event.sleep 100] ++ tr2 ++ [Event.sleep 100] ++ tr3 ++
                      [Event.sleep 100] ++ tr4)
              | ARun.ok s4 tr4 =>
                  ARun.ok s4
                    (tr1 ++ [Event.sleep 100] ++ tr2 ++ [Event.sleep 100] ++ tr3 ++
                      [Event.sleep 100] ++ tr4)

/-- Modelled from the spec: a fallible Type, keeping the source's emission
behavior: per character only the key-down report is emitted (the source's
`sendKeyPress` never sends the release report), followed by the 50 ms
per-character delay; abandoned at the first rejected emission. -/
def ftypeText (sink : ℕ → Bool) (s : FState) : List Char → ARun
  | [] => ARun.ok s []
  | c :: cs =>
      match femit sink s (Event.key (asciiToHIDKeycode c) true) with
      | ARun.failed s1 tr1 => ARun.failed s1 tr1
      | ARun.ok s1 tr1 =>
          match ftypeText sink s1 cs with
          | ARun.ok s2 tr2 => ARun.ok s2 (tr1 ++ [Event.sleep 50] ++ tr2)
          | ARun.failed s2 tr2 => ARun.failed s2 (tr1 ++ [Event.sleep 50] ++ tr2)

/-- Modelled from the spec: fallible dispatch of one action. -/
def fexecAction (sink : ℕ → Bool) (s : FState) (a : RecordedAction) (p : ScreenProfile) : ARun :=
  match a with
  | RecordedAction.move x y => fmoveToPosition sink s x y p
  | RecordedAction.click x y =>
      match fmoveToPosition sink s x y p with
      | ARun.failed s1 tr1 => ARun.failed s1 tr1
      | ARun.ok s1 tr1 =>
          match fclick sink s1 with
          | ARun.ok s2 tr2 => ARun.ok s2 (tr1 ++ [Event.sleep 100] ++ tr2)
          | ARun.failed s2 tr2 => ARun.failed s2 (tr1 ++ [Event.sleep 100] ++ tr2)
  | RecordedAction.drag x y tx ty => fdrag sink s x y tx ty p
  | RecordedAction.wait ms => ARun.ok s [Event.sleep ms]
  | RecordedAction.type t => ftypeText sink s t

/-- Modelled from the spec: fallible playback.  On the first action whose
run fails the engine aborts at once, reporting that action's index; no
remaining action is dispatched. -/
def fexecRecording (sink : ℕ → Bool) (s : FState) (idx : ℕ) (p : ScreenProfile) :
    List RecordedAction → RRun
  | [] => RRun.ok s []
  | a :: rest =>
      match fexecAction sink s a p with
      | ARun.failed s1 tr1 => RRun.aborted s1 tr1 idx
      | ARun.ok s1 tr1 =>
          match fexecRecording sink s1 (idx + 1) p rest with
          | RRun.ok s2 tr2 => RRun.ok s2 (tr1 ++ [Event.sleep 100] ++ tr2)
          | RRun.aborted s2 tr2 j => RRun.aborted s2 (tr1 ++ [Event.sleep 100] ++ tr2) j

/-- Modelled from the spec: a sink that accepts the first `k` emissions and
signals a transport failure from the k-th emission on. -/
def failAfter (k : ℕ) : ℕ → Bool :=
  fun n => decide (n < k)

/-- Recognizes sink emissions, that is move, button or key reports as
opposed to sleeps. -/
def isSinkEvent (e : Event) : Bool :=
  isMoveEvent e || isButtonEvent e || isKeyEvent e

/-- Number of sink emissions in a trace. -/
def countSinkEvents (tr : List Event) : ℕ :=
  (tr.filter isSinkEvent).length

/-- The sink accepts every emission index in the half-open interval from
`a` to `b`. -/
def accepted (sink : ℕ → Bool) (a b : ℕ) : Prop :=
  ∀ j, a ≤ j → j < b → sink j = true

/-- Modelled from the spec: accounting invariant for a sub-run under a
fallible sink.  The trace holds exactly one sink emission per accepted
index between the starting and final emission counters; on a failure the
sink additionally rejected the very next emission, so nothing past the
first rejected emission is ever emitted. -/
def ARunAccounted (sink : ℕ → Bool) (s : FState) : ARun → Prop
  | ARun.ok s' tr =>
      s.sent ≤ s'.sent ∧ countSinkEvents tr = s'.sent - s.sent ∧
        accepted sink s.sent s'.sent
  | ARun.failed s' tr =>
      s.sent ≤ s'.sent ∧ countSinkEvents tr = s'.sent - s.sent ∧
        accepted sink s.sent s'.sent ∧ sink s'.sent = false

theorem countSinkEvents_append (t1 t2 : List Event) :
    countSinkEvents (t1 ++ t2) = countSinkEvents t1 + countSinkEvents t2 := by
  simp [countSinkEvents, List.filter_append]

theorem countSinkEvents_sleep (ms : ℕ) : countSinkEvents [Event.sleep ms] = 0 :=
  rfl

theorem accepted_trans (sink : ℕ → Bool) (a b c : ℕ)
    (h1 : accepted sink a b) (h2 : accepted sink b c) : accepted sink a c := by
  intro j hj1 hj2
  by_cases hj : j < b
  · exact h1 j hj1 hj
  · exact h2 j (le_of_not_lt hj) hj2

theorem ARunAccounted_seq_ok (sink : ℕ → Bool) (s s1 s2 : FState)
    (tr1 tr2 tr : List Event)
    (h1 : ARunAccounted sink s (ARun.ok s1 tr1))
    (h2 : ARunAccounted sink s1 (ARun.ok s2 tr2))
    (hc : countSinkEvents tr = countSinkEvents tr1 + countSinkEvents tr2) :
    ARunAccounted sink s (ARun.ok s2 tr) := by
  obtain ⟨a1, a2, a3⟩ := h1
  obtain ⟨b1, b2, b3⟩ := h2
  exact ⟨le_trans a1 b1, by omega, accepted_trans sink _ _ _ a3 b3⟩

theorem ARunAccounted_seq_failed (sink : ℕ → Bool) (s s1 s2 : FState)
    (tr1 tr2 tr : List Event)
    (h1 : ARunAccounted sink s (ARun.ok s1 tr1))
    (h2 : ARunAccounted sink s1 (ARun.failed s2 tr2))
    (hc : countSinkEvents tr = countSinkEvents tr1 + countSinkEvents tr2) :
    ARunAccounted sink s (ARun.failed s2 tr) := by
  obtain ⟨a1, a2, a3⟩ := h1
  obtain ⟨b1, b2, b3, b4⟩ := h2
  exact ⟨le_trans a1 b1, by omega, accepted_trans sink _ _ _ a3 b3, b4⟩

theorem femit_accounted (sink : ℕ → Bool) (s : FState) (e : Event)
    (he : isSinkEvent e = true) :
    ARunAccounted sink s (femit sink s e) := by
  cases hs : sink s.sent with
  | true =>
      simp only [femit, hs, if_true]
      refine ⟨Nat.le_succ _, ?_, ?_⟩
      · simp [countSinkEvents, he]
      · intro j h1 h2
        have h2' : j < s.sent + 1 := h2
        have hj : j = s.sent := by omega
        rw [hj]
        exact hs
  | false =>
      simp only [femit, hs, Bool.false_eq_true, if_false]
      refine ⟨le_refl _, by simp [countSinkEvents], ?_, hs⟩
      intro j h1 h2
      exact absurd (lt_of_le_of_lt h1 h2) (lt_irrefl _)

theorem fmoveLoop_accounted (sink : ℕ → Bool) (dx dy : ℤ) :
    ∀ (k : ℕ) (s : FState), ARunAccounted sink s (fmoveLoop sink dx dy k s) := by
  intro k
  induction k with
  | zero =>
      intro s
      exact ⟨le_refl _, by simp [countSinkEvents], fun j h1 h2 =>
        absurd (lt_of_le_of_lt h1 h2) (lt_irrefl _)⟩
  | succ k ih =>
      intro s
      have hf := femit_accounted sink s (Event.move (dx.tdiv 10) (dy.tdiv 10)) rfl
      cases he : femit sink s (Event.move (dx.tdiv 10) (dy.tdiv 10)) with
      | failed s1 tr1 =>
          rw [he] at hf
          simp only [fmoveLoop, he]
          exact hf
      | ok s1 tr1 =>
          rw [he] at hf
          have hl := ih s1
          cases hl' : fmoveLoop sink dx dy k s1 with
          | ok s2 tr2 =>
              rw [hl'] at hl
              simp only [fmoveLoop, he, hl']
              exact ARunAccounted_seq_ok sink s s1 s2 tr1 tr2
                (tr1 ++ [Event.sleep 10] ++ tr2) hf hl
                (by simp only [countSinkEvents_append, countSinkEvents_sleep]; omega)
          | failed s2 tr2 =>
              rw [hl'] at hl
              simp only [fmoveLoop, he, hl']
              exact ARunAccounted_seq_failed sink s s1 s2 tr1 tr2
                (tr1 ++ [Event.sleep 10] ++ tr2) hf hl
                (by simp only [countSinkEvents_append, countSinkEvents_sleep]; omega)

theorem fmoveToPosition_accounted (sink : ℕ → Bool) (s : FState) (x y : ℚ)
    (p : ScreenProfile) :
    ARunAccounted sink s (fmoveToPosition sink s x y p) := by
  have h := fmoveLoop_accounted sink ((relativeToAbsolute x y p).1 - s.cursor.x)
    ((relativeToAbsolute x y p).2 - s.cursor.y) 10 s
  cases hl : fmoveLoop sink ((relativeToAbsolute x y p).1 - s.cursor.x)
      ((relativeToAbsolute x y p).2 - s.cursor.y) 10 s with
  | ok s1 tr =>
      rw [hl] at h
      simp only [fmoveToPosition, hl]
      exact ⟨h.1, h.2.1, h.2.2⟩
  | failed s1 tr =>
      rw [hl] at h
      simp only [fmoveToPosition, hl]
      exact h

theorem fclick_accounted (sink : ℕ → Bool) (s : FState) :
    ARunAccounted sink s (fclick sink s) := by
  have h1 := femit_accounted sink s (Event.button true) rfl
  cases he1 : femit sink s (Event.button true) with
  | failed s1 tr1 =>
      rw [he1] at h1
      simp only [fclick, he1]
      exact h1
  | ok s1 tr1 =>
      rw [he1] at h1
      have h2 := femit_accounted sink s1 (Event.button false) rfl
      cases he2 : femit sink s1 (Event.button false) with
      | ok s2 tr2 =>
          rw [he2] at h2
          simp only [fclick, he1, he2]
          exact ARunAccounted_seq_ok sink s s1 s2 tr1 tr2
            (tr1 ++ [Event.sleep 50] ++ tr2) h1 h2
            (by simp only [countSinkEvents_append, countSinkEvents_sleep]; omega)
      | failed s2 tr2 =>
          rw [he2] at h2
          simp only [fclick, he1, he2]
          exact ARunAccounted_seq_failed sink s s1 s2 tr1 tr2
            (tr1 ++ [Event.sleep 50] ++ tr2) h1 h2
            (by simp only [countSinkEvents_append, countSinkEvents_sleep]; omega)

theorem fdrag_accounted (sink : ℕ → Bool) (s : FState) (fx fy tx ty : ℚ)
    (p : ScreenProfile) :
    ARunAccounted sink s (fdrag sink s fx fy tx ty p) := by
  have h1 := fmoveToPosition_accounted sink s fx fy p
  cases he1 : fmoveToPosition sink s fx fy p with
  | failed s1 tr1 =>
      rw [he1] at h1
      simp only [fdrag, he1]
      exact h1
  | ok s1 tr1 =>
      rw [he1] at h1
      have h2 := femit_accounted sink s1 (Event.button true) rfl
      cases he2 : femit sink s1 (Event.button true) with
      | failed s2 tr2 =>
          rw [he2] at h2
          simp only [fdrag, he1, he2]
          exact ARunAccounted_seq_failed sink s s1 s2 tr1 tr2
            (tr1 ++ [Event.sleep 100] ++ tr2) h1 h2
            (by simp only [countSinkEvents_append, countSinkEvents_sleep]; omega)
      | ok s2 tr2 =>
          rw [he2] at h2
          have h12 := ARunAccounted_seq_ok sink s s1 s2 tr1 tr2
            (tr1 ++ [Event.sleep 100] ++ tr2) h1 h2
            (by simp only [countSinkEvents_append, countSinkEvents_sleep]; omega)
          have h3 := fmoveToPosition_accounted sink s2 tx ty p
          cases he3 : fmoveToPosition sink s2 tx ty p with
          | failed s3 tr3 =>
              rw [he3] at h3
              simp only [fdrag, he1, he2, he3]
              exact ARunAccounted_seq_failed sink s s2 s3
                (tr1 ++ [Event.sleep 100] ++ tr2) tr3
                (tr1 ++ [Event.sleep 100] ++ tr2 ++ [Event.sleep 100] ++ tr3) h12 h3
                (by simp only [countSinkEvents_append, countSinkEvents_sleep]; omega)
          | ok s3 tr3 =>
              rw [he3] at h3
              have h123 := ARunAccounted_seq_ok sink s s2 s3
                (tr1 ++ [Event.sleep 100] ++ tr2) tr3
                (tr1 ++ [Event.sleep 100] ++ tr2 ++ [Event.sleep 100] ++ tr3) h12 h3
                (by simp only [countSinkEvents_append, countSinkEvents_sleep]; omega)
              have h4 := femit_accounted sink s3 (Event.button false) rfl
              cases he4 : femit sink s3 (Event.button false) with
              | failed s4 tr4 =>
                  rw [he4] at h4
                  simp only [fdrag, he1, he2, he3, he4]
                  exact ARunAccounted_seq_failed sink s s3 s4
                    (tr1 ++ [Event.sleep 100] ++ tr2 ++ [Event.sleep 100] ++ tr3) tr4
                    (tr1 ++ [Event.sleep 100] ++ tr2 ++ [Event.sleep 100] ++ tr3 ++
                      [Event.sleep 100] ++ tr4)
                    h123 h4
                    (by simp only [countSinkEvents_append, countSinkEvents_sleep]; omega)
              | ok s4 tr4 =>
                  rw [he4] at h4
                  simp only [fdrag, he1, he2, he3, he4]
                  exact ARunAccounted_seq_ok sink s s3 s4
                    (tr1 ++ [Event.sleep 100] ++ tr2 ++ [Event.sleep 100] ++ tr3) tr4
                    (tr1 ++ [Event.sleep 100] ++ tr2 ++ [Event.sleep 100] ++ tr3 ++
                      [Event.sleep 100] ++ tr4)
                    h123 h4
                    (by simp only [countSinkEvents_append, countSinkEvents_sleep]; omega)

theorem ftypeText_accounted (sink : ℕ → Bool) :
    ∀ (t : List Char) (s : FState), ARunAccounted sink s (ftypeText sink s t) := by
  intro t
  induction t with
  | nil =>
      intro s
      exact ⟨le_refl _, by simp [countSinkEvents], fun j h1 h2 =>
        absurd (lt_of_le_of_lt h1 h2) (lt_irrefl _)⟩
  | cons c cs ih =>
      intro s
      have hf := femit_accounted sink s (Event.key (asciiToHIDKeycode c) true) rfl
      cases he : femit sink s (Event.key (asciiToHIDKeycode c) true) with
      | failed s1 tr1 =>
          rw [he] at hf
          simp only [ftypeText, he]
          exact hf
      | ok s1 tr1 =>
          rw [he] at hf
          have hl := ih s1
          cases hl' : ftypeText sink s1 cs with
          | ok s2 tr2 =>
              rw [hl'] at hl
              simp only [ftypeText, he, hl']
              exact ARunAccounted_seq_ok sink s s1 s2 tr1 tr2
                (tr1 ++ [Event.sleep 50] ++ tr2) hf hl
                (by simp only [countSinkEvents_append, countSinkEvents_sleep]; omega)
          | failed s2 tr2 =>
              rw [hl'] at hl
              simp only [ftypeText, he, hl']
              exact ARunAccounted_seq_failed sink s s1 s2 tr1 tr2
                (tr1 ++ [Event.sleep 50] ++ tr2) hf hl
                (by simp only [countSinkEvents_append, countSinkEvents_sleep]; omega)

theorem fexecAction_accounted (sink : ℕ → Bool) (s : FState) (a : RecordedAction)
    (p : ScreenProfile) :
    ARunAccounted sink s (fexecAction sink s a p) := by
  cases a with
  | move x y => exact fmoveToPosition_accounted sink s x y p
  | click x y =>
      have h1 := fmoveToPosition_accounted sink s x y p
      cases he1 : fmoveToPosition sink s x y p with
      | failed s1 tr1 =>
          rw [he1] at h1
          simp only [fexecAction, he1]
          exact h1
      | ok s1 tr1 =>
          rw [he1] at h1
          have h2 := fclick_accounted sink s1
          cases he2 : fclick sink s1 with
          | ok s2 tr2 =>
              rw [he2] at h2
              simp only [fexecAction, he1, he2]
              exact ARunAccounted_seq_ok sink s s1 s2 tr1 tr2
                (tr1 ++ [Event.sleep 100] ++ tr2) h1 h2
                (by simp only [countSinkEvents_append, countSinkEvents_sleep]; omega)
          | failed s2 tr2 =>
              rw [he2] at h2
              simp only [fexecAction, he1, he2]
              exact ARunAccounted_seq_failed sink s s1 s2 tr1 tr2
                (tr1 ++ [Event.sleep 100] ++ tr2) h1 h2
                (by simp only [countSinkEvents_append, countSinkEvents_sleep]; omega)
  | drag x y tx ty => exact fdrag_accounted sink s x y tx ty p
  | wait ms =>
      exact ⟨le_refl _, by rw [countSinkEvents_sleep]; omega, fun j h1 h2 =>
        absurd (lt_of_le_of_lt h1 h2) (lt_irrefl _)⟩
  | type t => exact ftypeText_accounted sink t s

theorem fexecRecording_abort_at (sink : ℕ → Bool) (p : ScreenProfile)
    (pre : List RecordedAction) :
    ∀ (s : FState) (idx : ℕ) (s1 : FState) (tr1 : List Event),
      fexecRecording sink s idx p pre = RRun.ok s1 tr1 →
      ∀ (a : RecordedAction) (sf : FState) (trf : List Event),
        fexecAction sink s1 a p = ARun.failed sf trf →
        ∀ rest : List RecordedAction,
          fexecRecording sink s idx p (pre ++ a :: rest) =
            RRun.aborted sf (tr1 ++ trf) (idx + pre.length) := by
  induction pre with
  | nil =>
      intro s idx s1 tr1 h1 a sf trf hfail rest
      simp only [fexecRecording, RRun.ok.injEq] at h1
      obtain ⟨rfl, rfl⟩ := h1
      simp [fexecRecording, hfail]
  | cons b pre' ih =>
      intro s idx s1 tr1 h1 a sf trf hfail rest
      cases hb : fexecAction sink s b p with
      | failed sb tb =>
          simp only [fexecRecording, hb] at h1
          exact absurd h1 (by simp)
      | ok sb tb =>
          cases hp : fexecRecording sink sb (idx + 1) p pre' with
          | aborted s2 t2 j =>
              simp only [fexecRecording, hb, hp] at h1
              exact absurd h1 (by simp)
          | ok s2 t2 =>
              simp only [fexecRecording, hb, hp, RRun.ok.injEq] at h1
              obtain ⟨rfl, rfl⟩ := h1
              have hrec := ih sb (idx + 1) s2 t2 hp a sf trf hfail rest
              simp only [List.cons_append, fexecRecording, hb, List.append_eq]
              rw [hrec]
              have hidx : idx + 1 + pre'.length = idx + (pre'.length + 1) := by omega
              simp [List.append_assoc, hidx]

/-- C7: abort semantics of the fallible playback model.  First, for every
sink, profile, start state, start index and recording split as a prefix of
succeeding actions followed by an action on which an emission fails,
playback returns Aborted immediately: the run's whole trace is the prefix's
events followed by the failing action's partial events, the reported index
is the failing action's index, and the actions after it (universally
quantified) contribute nothing.  Second, for every action on which an
emission fails, the partial trace holds exactly one emission per sink index
accepted between the starting and final counters and the sink rejected the
very next emission, so no later sub-step of that action is emitted — this
covers a failure during a Move, Click, Drag or Type alike.  Third, in
particular, when the sink rejects a Drag's button-down after accepting the
ten origin sub-steps, playback aborts tagged with the drag's index, the
trace ends at the origin sub-steps plus the settle sleep with no button or
key event, the destination move is never attempted, and the cursor holds
the drag's origin position. -/
theorem fexecRecording_abort_semantics :
    (∀ (sink : ℕ → Bool) (p : ScreenProfile) (pre : List RecordedAction) (s : FState)
        (idx : ℕ) (s1 : FState) (tr1 : List Event) (a : RecordedAction) (sf : FState)
        (trf : List Event) (rest : List RecordedAction),
      fexecRecording sink s idx p pre = RRun.ok s1 tr1 →
      fexecAction sink s1 a p = ARun.failed sf trf →
      fexecRecording sink s idx p (pre ++ a :: rest) =
        RRun.aborted sf (tr1 ++ trf) (idx + pre.length)) ∧
    (∀ (sink : ℕ → Bool) (s : FState) (a : RecordedAction) (p : ScreenProfile)
        (sf : FState) (trf : List Event),
      fexecAction sink s a p = ARun.failed sf trf →
      countSinkEvents trf = sf.sent - s.sent ∧ accepted sink s.sent sf.sent ∧
        sink sf.sent = false) ∧
    (∀ (c0 : CursorState) (fx fy tx ty : ℚ) (p : ScreenProfile) (idx : ℕ)
        (rest : List RecordedAction),
      fexecRecording (failAfter 10) ⟨c0, 0⟩ idx p
          (RecordedAction.drag fx fy tx ty :: rest) =
        RRun.aborted
          ⟨⟨(relativeToAbsolute fx fy p).1, (relativeToAbsolute fx fy p).2⟩, 10⟩
          (List.flatten (List.replicate 10
              [Event.move (((relativeToAbsolute fx fy p).1 - c0.x).tdiv 10)
                (((relativeToAbsolute fx fy p).2 - c0.y).tdiv 10), Event.sleep 10]) ++
            [Event.sleep 100]) idx ∧
      (List.flatten (List.replicate 10
          [Event.move (((relativeToAbsolute fx fy p).1 - c0.x).tdiv 10)
            (((relativeToAbsolute fx fy p).2 - c0.y).tdiv 10), Event.sleep 10]) ++
        [Event.sleep 100]).filter isButtonEvent = [] ∧
      (List.flatten (List.replicate 10
          [Event.move (((relativeToAbsolute fx fy p).1 - c0.x).tdiv 10)
            (((relativeToAbsolute fx fy p).2 - c0.y).tdiv 10), Event.sleep 10]) ++
        [Event.sleep 100]).filter isKeyEvent = [] ∧
      (List.flatten (List.replicate 10
          [Event.move (((relativeToAbsolute fx fy p).1 - c0.x).tdiv 10)
            (((relativeToAbsolute fx fy p).2 - c0.y).tdiv 10), Event.sleep 10]) ++
        [Event.sleep 100]).filter isMoveEvent =
        List.replicate 10
          (Event.move (((relativeToAbsolute fx fy p).1 - c0.x).tdiv 10)
            (((relativeToAbsolute fx fy p).2 - c0.y).tdiv 10))) := by
  refine ⟨?_, ?_, ?_⟩
  · intro sink p pre s idx s1 tr1 a sf trf rest h1 hfail
    exact fexecRecording_abort_at sink p pre s idx s1 tr1 h1 a sf trf hfail rest
  · intro sink s a p sf trf hfail
    have h := fexecAction_accounted sink s a p
    rw [hfail] at h
    exact ⟨h.2.1, h.2.2.1, h.2.2.2⟩
  · intro c0 fx fy tx ty p idx rest
    exact ⟨rfl, rfl, rfl, rfl⟩

/-- Witness for C7: a concrete run where the second action (a Click, at
index 1 after a Wait) hits a sink that rejects every emission: playback
aborts at once with index 1, the trace holds only the Wait's sleeps, and
the sink indeed rejected the click's first emission. -/
theorem fexecRecording_abort_semantics_witness :
    fexecRecording (failAfter 0) ⟨⟨0, 0⟩, 0⟩ 0 defaultProfile
        ([RecordedAction.wait 5] ++ RecordedAction.click 1 1 :: [RecordedAction.wait 7]) =
      RRun.aborted ⟨⟨0, 0⟩, 0⟩ ([Event.sleep 5, Event.sleep 100] ++ []) (0 + 1) ∧
    failAfter 0 0 = false := by
  constructor
  · exact fexecRecording_abort_semantics.1 (failAfter 0) defaultProfile
      [RecordedAction.wait 5] ⟨⟨0, 0⟩, 0⟩ 0 ⟨⟨0, 0⟩, 0⟩ [Event.sleep 5, Event.sleep 100]
      (RecordedAction.click 1 1) ⟨⟨0, 0⟩, 0⟩ [] [RecordedAction.wait 7] rfl rfl
  · exact (fexecRecording_abort_semantics.2.1 (failAfter 0) ⟨⟨0, 0⟩, 0⟩
      (RecordedAction.click 1 1) defaultProfile ⟨⟨0, 0⟩, 0⟩ [] rfl).2.2

end HID
